import Mathlib

/-!
Verification development for the `youtube-thumbnails-monorepo` repository.

Shallow embedding of the data-collection pipeline:
* `YouTubeClient.fetch_batch` / `_fetch_videos_by_date` / `_parse_duration`
  (src/libs/youtube_collector/src/youtube_collector/client.py),
* `count_samples` / `get_next_batch_number` / rotation logic of `main`
  (src/scripts/pipeline_collect_daily.py),
* `prune_old_batches` (src/scripts/pipeline_rotate_batch.py).

External API calls are abstracted as environment functions (one outcome per
category request); Python mutable state (the class-level `REGION_PRESETS`
table mutated in place by `random.shuffle`) is modelled by explicit state
passing; Python `int()` on a float is modelled by exact rational truncation
toward zero.
-/

namespace YTCollector

/-- A fetched video record.  Only the fields the verified operations read are
carried; the remaining CSV columns are payload untouched by the logic. -/
structure Video where
  video_id : String
  views : Nat
  channel_subscribers : Nat
  duration_seconds : Nat
  deriving DecidableEq, Repr

/-! ### Duration parser (`YouTubeClient._parse_duration`)

Python: `re.match(r'PT(?:(\d+)H)?(?:(\d+)M)?(?:(\d+)S)?', duration)`,
returning `int(h or 0) * 3600 + int(m or 0) * 60 + int(s or 0)` and `0`
when the regex does not match (i.e. when the string does not start with
`PT`; after `PT` every group is optional, so the match itself always
succeeds). -/

/-- Maximal leading run of decimal digits of a character list, together with
the remainder (the regex engine's greedy `\d+` munching). -/
def splitDigits : List Char → List Char × List Char
  | [] => ([], [])
  | c :: cs =>
    if c.isDigit then
      let p := splitDigits cs
      (c :: p.1, p.2)
    else ([], c :: cs)

/-- Numeric value of a decimal digit string, as Python `int` reads it. -/
def numVal (ds : List Char) : Nat :=
  ds.foldl (fun a c => a * 10 + (c.toNat - 48)) 0

/-- One optional regex group `(?:(\d+)U)?` at the current position: if a
nonempty digit run immediately followed by the unit letter is present it is
consumed, otherwise the group matches empty and consumes nothing. -/
def parseGroup (unit : Char) (s : List Char) : Nat × List Char :=
  match splitDigits s with
  | ([], _) => (0, s)
  | (_, []) => (0, s)
  | (ds, u :: rest) => if u = unit then (numVal ds, rest) else (0, s)

/-- The regex body after the mandatory literal `PT`: optional hours, minutes,
seconds groups, combined as `h*3600 + m*60 + s`. -/
def parsePTBody (rest : List Char) : Nat :=
  let ph := parseGroup 'H' rest
  let pm := parseGroup 'M' ph.2
  let ps := parseGroup 'S' pm.2
  ph.1 * 3600 + pm.1 * 60 + ps.1

/-- The anchored match: the regex requires the literal `PT` at the start of
the string; everything after it is handled by the optional groups. -/
def parseDurationList (l : List Char) : Nat :=
  match l with
  | c :: d :: rest => if c = 'P' then if d = 'T' then parsePTBody rest else 0 else 0
  | _ => 0

/-- `YouTubeClient._parse_duration` (client.py lines 282-286). -/
def parse_duration (s : String) : Nat :=
  parseDurationList s.data

/-! ### Dedup-and-threshold filter (`YouTubeClient.fetch_batch`, lines 103-117)

Python:
```
seen = set()
unique_videos = []
for v in all_videos:
    if v['video_id'] not in seen:
        required_views = max(min_views, int(v['channel_subscribers'] * min_view_ratio))
        if v['channel_subscribers'] >= min_subscribers and v['views'] >= required_views:
            seen.add(v['video_id'])
            unique_videos.append(v)
return unique_videos
```
`min_view_ratio` is a Python float; it is embedded as an exact rational, and
`int(...)` as truncation toward zero. -/

/-- Python `int()` applied to a (rational-valued) number: truncation toward
zero. -/
def pythonInt (q : ℚ) : ℤ :=
  if 0 ≤ q then ⌊q⌋ else ⌈q⌉

/-- `required_views = max(min_views, int(v['channel_subscribers'] * min_view_ratio))`. -/
def requiredViews (min_views subs : Nat) (ratio : ℚ) : ℤ :=
  max (min_views : ℤ) (pythonInt ((subs : ℚ) * ratio))

/-- The threshold test of the admission branch:
`v['channel_subscribers'] >= min_subscribers and v['views'] >= required_views`. -/
def passesThresholds (min_subscribers min_views : Nat) (ratio : ℚ) (v : Video) : Bool :=
  decide (min_subscribers ≤ v.channel_subscribers) &&
    decide (requiredViews min_views v.channel_subscribers ratio ≤ (v.views : ℤ))

/-- The loop of lines 106-114, with the `seen` set made explicit. -/
def dedupFilterAux (min_subscribers min_views : Nat) (ratio : ℚ) :
    List String → List Video → List Video
  | _, [] => []
  | seen, v :: rest =>
    if v.video_id ∈ seen then
      dedupFilterAux min_subscribers min_views ratio seen rest
    else if passesThresholds min_subscribers min_views ratio v then
      v :: dedupFilterAux min_subscribers min_views ratio (v.video_id :: seen) rest
    else
      dedupFilterAux min_subscribers min_views ratio seen rest

/-- The value of the `seen` set after the loop has consumed its input. -/
def seenAfter (min_subscribers min_views : Nat) (ratio : ℚ) :
    List String → List Video → List String
  | seen, [] => seen
  | seen, v :: rest =>
    if v.video_id ∈ seen then
      seenAfter min_subscribers min_views ratio seen rest
    else if passesThresholds min_subscribers min_views ratio v then
      seenAfter min_subscribers min_views ratio (v.video_id :: seen) rest
    else
      seenAfter min_subscribers min_views ratio seen rest

/-- The dedup-and-threshold filter of `fetch_batch`, started on the empty
`seen` set. -/
def fetchBatchFilter (min_subscribers min_views : Nat) (ratio : ℚ) (l : List Video) :
    List Video :=
  dedupFilterAux min_subscribers min_views ratio [] l

/-! ### Fetch strategy (`fetch_batch` region loop, `_fetch_videos_by_date`
category loop)

The three YouTube API calls made for one category (search, video details,
channel details) are abstracted as one environment outcome per category:
either the list of extracted records, an HTTP error with a status code, or a
non-HTTP exception. -/

/-- Outcome of processing one category (the `try` body of
`_fetch_videos_by_date`, lines 142-183). -/
inductive FetchOutcome where
  | ok (videos : List Video)
  | httpError (status : Nat)
  | otherError
  deriving DecidableEq, Repr

/-- `e.resp.status in [403, 429]` — the quota / rate-limit statuses. -/
def isQuotaStatus (s : Nat) : Bool :=
  s = 403 || s = 429

/-- Category loop of `_fetch_videos_by_date` (lines 141-192): per category,
on success append the records that survive the duration filter; on an HTTP
error with quota status re-raise (`raise e`, line 187), losing the partial
`results`; on any other error log and continue. -/
def fetchCategoriesLoop (env : String → FetchOutcome) (min_duration : Nat) :
    List String → List Video → Except Nat (List Video)
  | [], results => .ok results
  | c :: rest, results =>
    match env c with
    | .ok vs =>
      fetchCategoriesLoop env min_duration rest
        (results ++ vs.filter (fun v => decide (min_duration ≤ v.duration_seconds)))
    | .httpError s =>
      if isQuotaStatus s then .error s
      else fetchCategoriesLoop env min_duration rest results
    | .otherError => fetchCategoriesLoop env min_duration rest results

/-- `YouTubeClient._fetch_videos_by_date` restricted to its category loop,
with the (already shuffled) category order passed in. -/
def fetch_videos_by_date (env : String → FetchOutcome) (min_duration : Nat)
    (categories : List String) : Except Nat (List Video) :=
  fetchCategoriesLoop env min_duration categories []

/-- Region loop of `fetch_batch` (lines 84-101): on success extend
`all_videos`; on an `HttpError` with quota status `break` (keeping
`all_videos` collected so far); on other statuses log and continue. -/
def fetchRegionsLoop (fetchRegion : String → Except Nat (List Video)) :
    List String → List Video → List Video
  | [], all_videos => all_videos
  | r :: rest, all_videos =>
    match fetchRegion r with
    | .ok vs => fetchRegionsLoop fetchRegion rest (all_videos ++ vs)
    | .error s =>
      if isQuotaStatus s then all_videos
      else fetchRegionsLoop fetchRegion rest all_videos

/-- `YouTubeClient.fetch_batch` after region resolution: region loop over the
shuffled region order, then the dedup-and-threshold filter. `catOrder r` is
the (already shuffled) category order used within region `r`. -/
def fetch_batch (regionOrder : List String) (catOrder : String → List String)
    (env : String → String → FetchOutcome)
    (min_duration min_subscribers min_views : Nat) (ratio : ℚ) : List Video :=
  fetchBatchFilter min_subscribers min_views ratio
    (fetchRegionsLoop
      (fun r => fetch_videos_by_date (env r) min_duration (catOrder r))
      regionOrder [])

/-! ### Region presets and in-place shuffling (client.py lines 40-44, 69-75,
133-137)

`REGION_PRESETS` is a class-level dict of mutable lists.  In
`fetch_batch`, `region_codes = self.REGION_PRESETS[region]` aliases the stored
list and `random.shuffle(region_codes)` reorders it in place, so the table
itself changes; the table is modelled as explicit state threaded through the
call.  `shuffle` stands for the permutation `random.shuffle` applies. -/

/-- The class-level `REGION_PRESETS` table (lines 40-44). -/
def REGION_PRESETS : List (String × List String) :=
  [("US", ["US"]),
   ("EU", ["GB", "IE", "DE", "FR", "NL", "SE", "DK", "FI", "NO", "AT", "BE", "IT", "ES", "PT", "PL"]),
   ("US_EU", ["US", "GB", "IE", "DE", "FR", "NL", "SE", "DK", "FI", "NO"])]

/-- Keys of the class-level `DEFAULT_CATEGORIES` dict (lines 31-37). -/
def DEFAULT_CATEGORY_IDS : List String :=
  ["1", "2", "10", "15", "17", "19", "20", "22", "23", "24", "25", "26", "27", "28", "29"]

/-- Dict lookup `region in self.REGION_PRESETS` / `self.REGION_PRESETS[region]`. -/
def lookupPreset : List (String × List String) → String → Option (List String)
  | [], _ => none
  | p :: ps, region => if p.1 = region then some p.2 else lookupPreset ps region

/-- Store a new value for one preset entry (the effect of mutating the list
object the entry holds). -/
def updatePreset (presets : List (String × List String)) (region : String)
    (codes : List String) : List (String × List String) :=
  presets.map (fun p => if p.1 = region then (p.1, codes) else p)

/-- Lines 69-75 of `fetch_batch`: resolve `region_codes` (aliasing the stored
preset list when `region` is a preset key) and shuffle it in place.  Returns
the shuffled `region_codes` and the preset table after the call. -/
def resolveRegions (presets : List (String × List String)) (region : String)
    (shuffle : List String → List String) :
    List String × List (String × List String) :=
  match lookupPreset presets region with
  | some codes => (shuffle codes, updatePreset presets region (shuffle codes))
  | none => (shuffle [region], presets)

/-- Lines 133-137 of `_fetch_videos_by_date`: when `categories` is `None` a
fresh list of default category ids is built and shuffled; otherwise the
caller's list is shuffled in place.  Returns the category order used and the
value of the caller's list object after the call. -/
def shuffleCategoriesArg (categories : Option (List String))
    (shuffle : List String → List String) : List String × Option (List String) :=
  match categories with
  | none => (shuffle DEFAULT_CATEGORY_IDS, none)
  | some l => (shuffle l, some (shuffle l))

/-! ### Daily collection script (src/scripts/pipeline_collect_daily.py) -/

/-- `count_samples` (lines 19-23): `0` when the file does not exist, otherwise
the number of lines minus one (so `-1` on an existing empty file).  The file
is modelled as `none` (missing) or the list of its lines. -/
def count_samples (metadata_file : Option (List String)) : ℤ :=
  match metadata_file with
  | none => 0
  | some lines => (lines.length : ℤ) - 1

/-- `BATCH_LIMIT = 500` (line 16). -/
def BATCH_LIMIT : ℤ := 500

/-- `get_next_batch_number` (lines 25-32), with the parsed batch numbers of
the existing `batch_*.dvc` files passed in: `max(versions) + 1` when any
exist, else `1`. -/
def get_next_batch_number (versions : List Nat) : Nat :=
  match versions with
  | [] => 1
  | v :: vs => vs.foldl Nat.max v + 1

/-- Python `f"{n:03d}"`: decimal digits zero-padded to width at least 3. -/
def pad3 (n : Nat) : String :=
  if n < 10 then "00" ++ toString n
  else if n < 100 then "0" ++ toString n
  else toString n

/-- `target_batch_name = f"batch_{next_batch_num:03d}"` (line 59). -/
def batchName (n : Nat) : String :=
  "batch_" ++ pad3 n

/-- Name of the `.dvc` ledger file of a sealed batch. -/
def batchFileName (n : Nat) : String :=
  batchName n ++ ".dvc"

/-- Steps 2 and 5 of `main` (lines 73-75 and 151-161): if no videos were
fetched the script exits before the rotation check; otherwise the `.rotate`
marker is written with `target_batch_name` exactly when
`count_samples(metadata_file) >= BATCH_LIMIT`.  Returns the marker content,
`none` when no marker is written. -/
def rotationMarker (videos_found : Bool) (metadata_file : Option (List String))
    (versions : List Nat) : Option String :=
  if videos_found = false then none
  else if BATCH_LIMIT ≤ count_samples metadata_file then
    some (batchName (get_next_batch_number versions))
  else none

/-! ### Batch rotation script (src/scripts/pipeline_rotate_batch.py) -/

/-- Lexicographic order on character lists by code point — how Python
compares the path names in `batch_files.sort(key=lambda x: x.name)`. -/
def charListLe : List Char → List Char → Bool
  | [], _ => true
  | _ :: _, [] => false
  | a :: as, b :: bs => if a = b then charListLe as bs else decide (a < b)

/-- Name order on batch numbers: compare the `.dvc` file names. -/
def nameLe (n m : Nat) : Bool :=
  charListLe (batchFileName n).data (batchFileName m).data

/-- Stable insertion of a batch number into a list sorted by `.dvc` file
name (`batch_files.sort(key=lambda x: x.name)`, line 52). -/
def insertByName (n : Nat) : List Nat → List Nat
  | [] => [n]
  | m :: ms => if nameLe n m then n :: m :: ms else m :: insertByName n ms

/-- Sort batch numbers by their `.dvc` file name, ascending. -/
def sortByName (nums : List Nat) : List Nat :=
  nums.foldr insertByName []

/-- `prune_old_batches` (lines 43-67), on the numbers of the sealed batches:
when the count exceeds `max_batches`, sort the ledger files by name, remove
the first (`batch_files[0]`) from tracking and reclaim it; otherwise do
nothing.  Returns the evicted number (if any) and the remaining ledger. -/
def prune_old_batches (max_batches : Nat) (nums : List Nat) : Option Nat × List Nat :=
  if max_batches < nums.length then
    match sortByName nums with
    | [] => (none, nums)
    | oldest :: _ => (some oldest, nums.erase oldest)
  else (none, nums)

/-- `MAX_BATCHES = 150` (line 13 of pipeline_rotate_batch.py). -/
def MAX_BATCHES : Nat := 150

/-! ### Concrete scenarios used to instantiate the statements -/

/-- A record of region "B" that passes every threshold at zero parameters. -/
def vSample : Video :=
  { video_id := "vid-B", views := 1000, channel_subscribers := 5000, duration_seconds := 120 }

/-- Environment where every category of region "A" hits the quota (HTTP 403)
and every category of region "B" succeeds with `vSample`. -/
def envQuotaFirst : String → String → FetchOutcome :=
  fun r _ => if r = "A" then FetchOutcome.httpError 403 else FetchOutcome.ok [vSample]

/-- Environment where region "A" succeeds with `vSample` and every other
region hits the quota (HTTP 403). -/
def envOkThenQuota : String → String → FetchOutcome :=
  fun r _ => if r = "A" then FetchOutcome.ok [vSample] else FetchOutcome.httpError 403

/-- A one-category shuffled order for every region. -/
def singleCat : String → List String :=
  fun _ => ["20"]

/-- A record admitted at `min_subscribers = 1000`, `min_views = 100`,
`min_view_ratio = 1/2`: `required_views = max(100, ⌊2000·(1/2)⌋) = 1000`. -/
def vC2 : Video :=
  { video_id := "id-2", views := 1000, channel_subscribers := 2000, duration_seconds := 90 }

/-- An admitted record (zero thresholds) whose identifier recurs later. -/
def vAdmitted : Video :=
  { video_id := "dup", views := 50, channel_subscribers := 10, duration_seconds := 0 }

/-- A later duplicate of `vAdmitted` (same identifier, different stats). -/
def vDupLater : Video :=
  { video_id := "dup", views := 60, channel_subscribers := 20, duration_seconds := 0 }

/-- A record that fails `min_subscribers = 100` (only 10 subscribers). -/
def vRejected : Video :=
  { video_id := "dup2", views := 50, channel_subscribers := 10, duration_seconds := 0 }

/-- A later duplicate of `vRejected` that passes `min_subscribers = 100`. -/
def vRetried : Video :=
  { video_id := "dup2", views := 99, channel_subscribers := 200, duration_seconds := 0 }

theorem splitDigits_append_of_digits (ds : List Char) (u : Char) (r : List Char)
    (hds : ∀ c ∈ ds, c.isDigit = true) (hu : u.isDigit = false) :
    splitDigits (ds ++ u :: r) = (ds, u :: r) := by
  induction ds with
  | nil => simp [splitDigits, hu]
  | cons c cs ih =>
    have hc : c.isDigit = true := hds c (by simp)
    have hcs : ∀ x ∈ cs, x.isDigit = true := fun x hx => hds x (by simp [hx])
    simp [splitDigits, hc, ih hcs]

theorem parseGroup_of_digits (unit : Char) (ds : List Char) (r : List Char)
    (hne : ds ≠ []) (hds : ∀ c ∈ ds, c.isDigit = true) (hu : unit.isDigit = false) :
    parseGroup unit (ds ++ unit :: r) = (numVal ds, r) := by
  rw [parseGroup, splitDigits_append_of_digits ds unit r hds hu]
  cases ds with
  | nil => exact absurd rfl hne
  | cons c cs => simp

theorem dedupFilterAux_append (p₁ p₂ : Nat) (ρ : ℚ) (l m : List Video) :
    ∀ seen, dedupFilterAux p₁ p₂ ρ seen (l ++ m) =
      dedupFilterAux p₁ p₂ ρ seen l ++
        dedupFilterAux p₁ p₂ ρ (seenAfter p₁ p₂ ρ seen l) m := by
  induction l with
  | nil => intro seen; simp [dedupFilterAux, seenAfter]
  | cons v rest ih =>
    intro seen
    by_cases h1 : v.video_id ∈ seen
    · simp [dedupFilterAux, seenAfter, h1, ih]
    · by_cases h2 : passesThresholds p₁ p₂ ρ v
      · simp [dedupFilterAux, seenAfter, h1, h2, ih]
      · simp [dedupFilterAux, seenAfter, h1, h2, ih]

theorem mem_seenAfter (p₁ p₂ : Nat) (ρ : ℚ) (l : List Video) :
    ∀ seen x, x ∈ seenAfter p₁ p₂ ρ seen l ↔
      x ∈ seen ∨ x ∈ (dedupFilterAux p₁ p₂ ρ seen l).map (·.video_id) := by
  induction l with
  | nil => intro seen x; simp [seenAfter, dedupFilterAux]
  | cons v rest ih =>
    intro seen x
    by_cases h1 : v.video_id ∈ seen
    · simp [seenAfter, dedupFilterAux, h1, ih]
    · by_cases h2 : passesThresholds p₁ p₂ ρ v
      · simp only [seenAfter, dedupFilterAux, if_neg h1, if_pos h2, List.map_cons,
          List.mem_cons, ih]
        tauto
      · simp [seenAfter, dedupFilterAux, h1, h2, ih]

theorem mem_dedupFilterAux_passes (p₁ p₂ : Nat) (ρ : ℚ) (l : List Video) :
    ∀ seen v, v ∈ dedupFilterAux p₁ p₂ ρ seen l →
      passesThresholds p₁ p₂ ρ v = true := by
  induction l with
  | nil => intro seen v h; simp [dedupFilterAux] at h
  | cons w rest ih =>
    intro seen v h
    by_cases h1 : w.video_id ∈ seen
    · exact ih _ v (by simpa [dedupFilterAux, h1] using h)
    · by_cases h2 : passesThresholds p₁ p₂ ρ w
      · simp only [dedupFilterAux, if_neg h1, if_pos h2, List.mem_cons] at h
        rcases h with h | h
        · exact h ▸ h2
        · exact ih _ v h
      · exact ih _ v (by simpa [dedupFilterAux, h1, h2] using h)

theorem dedupFilterAux_sublist (p₁ p₂ : Nat) (ρ : ℚ) (l : List Video) :
    ∀ seen, List.Sublist (dedupFilterAux p₁ p₂ ρ seen l) l := by
  induction l with
  | nil => intro seen; simp [dedupFilterAux]
  | cons v rest ih =>
    intro seen
    by_cases h1 : v.video_id ∈ seen
    · simp only [dedupFilterAux, if_pos h1]
      exact (ih seen).cons v
    · by_cases h2 : passesThresholds p₁ p₂ ρ v
      · simp only [dedupFilterAux, if_neg h1, if_pos h2]
        exact (ih _).cons₂ v
      · simp only [dedupFilterAux, if_neg h1, if_neg h2]
        exact (ih seen).cons v

theorem dedupFilterAux_nodup (p₁ p₂ : Nat) (ρ : ℚ) (l : List Video) :
    ∀ seen, ((dedupFilterAux p₁ p₂ ρ seen l).map (·.video_id)).Nodup ∧
      ∀ x ∈ (dedupFilterAux p₁ p₂ ρ seen l).map (·.video_id), x ∉ seen := by
  induction l with
  | nil => intro seen; simp [dedupFilterAux]
  | cons v rest ih =>
    intro seen
    by_cases h1 : v.video_id ∈ seen
    · simpa [dedupFilterAux, h1] using ih seen
    · by_cases h2 : passesThresholds p₁ p₂ ρ v
      · have ihh := ih (v.video_id :: seen)
        simp only [dedupFilterAux, if_neg h1, if_pos h2, List.map_cons, List.nodup_cons,
          List.mem_cons]
        refine ⟨⟨fun hm => ?_, ihh.1⟩, ?_⟩
        · exact (ihh.2 _ hm) (by simp)
        · intro x hx
          rcases hx with hx | hx
          · exact hx ▸ h1
          · exact fun hs => (ihh.2 x hx) (by simp [hs])
      · simpa [dedupFilterAux, h1, h2] using ih seen

theorem requiredViews_le_iff (min_views subs views : Nat) (ρ : ℚ) :
    requiredViews min_views subs ρ ≤ (views : ℤ) ↔
      max (min_views : ℤ) ⌊(subs : ℚ) * ρ⌋ ≤ (views : ℤ) := by
  by_cases h : 0 ≤ (subs : ℚ) * ρ
  · simp [requiredViews, pythonInt, h]
  · have hq : (subs : ℚ) * ρ < 0 := not_le.mp h
    have hceil : ⌈(subs : ℚ) * ρ⌉ ≤ 0 := Int.ceil_le.mpr (by exact_mod_cast hq.le)
    have hfloor : ⌊(subs : ℚ) * ρ⌋ ≤ 0 := le_trans (Int.floor_le_ceil _) hceil
    have hv : (0 : ℤ) ≤ (views : ℤ) := Int.ofNat_nonneg views
    simp only [requiredViews, pythonInt, if_neg h, max_le_iff]
    constructor
    · rintro ⟨ha, _⟩
      exact ⟨ha, le_trans hfloor hv⟩
    · rintro ⟨ha, _⟩
      exact ⟨ha, le_trans hceil hv⟩

/-- C8: the duration parser maps a token to whole seconds as
`hours*3600 + minutes*60 + seconds`; `"PT1H2M3S" ↦ 3723`, `"PT45M" ↦ 2700`,
`"PT0S" ↦ 0`, and any input the regex cannot match (one not starting with
the literal `PT`) maps to `0`. -/
theorem C8_parse_duration_spec :
    parse_duration "PT1H2M3S" = 3723 ∧
    parse_duration "PT45M" = 2700 ∧
    parse_duration "PT0S" = 0 ∧
    (∀ s : String, (∀ t, s.data ≠ 'P' :: 'T' :: t) → parse_duration s = 0) ∧
    (∀ hd md sd : List Char, hd ≠ [] → md ≠ [] → sd ≠ [] →
      (∀ c ∈ hd, c.isDigit = true) → (∀ c ∈ md, c.isDigit = true) →
      (∀ c ∈ sd, c.isDigit = true) →
      parse_duration ⟨'P' :: 'T' :: (hd ++ 'H' :: (md ++ 'M' :: (sd ++ ['S'])))⟩ =
        numVal hd * 3600 + numVal md * 60 + numVal sd) := by
  refine ⟨by decide, by decide, by decide, ?_, ?_⟩
  · intro s h
    obtain ⟨l⟩ := s
    rcases l with _ | ⟨c, _ | ⟨d, t⟩⟩
    · rfl
    · rfl
    · by_cases hc : c = 'P'
      · by_cases hd2 : d = 'T'
        · subst hc; subst hd2
          exact absurd rfl (h t)
        · simp [parse_duration, parseDurationList, hd2]
      · simp [parse_duration, parseDurationList, hc]
  · intro hd md sd h1 h2 h3 d1 d2 d3
    have hH : parseGroup 'H' (hd ++ 'H' :: (md ++ 'M' :: (sd ++ ['S']))) =
        (numVal hd, md ++ 'M' :: (sd ++ ['S'])) :=
      parseGroup_of_digits 'H' hd _ h1 d1 (by decide)
    have hM : parseGroup 'M' (md ++ 'M' :: (sd ++ ['S'])) = (numVal md, sd ++ ['S']) :=
      parseGroup_of_digits 'M' md _ h2 d2 (by decide)
    have hS : parseGroup 'S' (sd ++ ['S']) = (numVal sd, []) :=
      parseGroup_of_digits 'S' sd [] h3 d3 (by decide)
    show parsePTBody (hd ++ 'H' :: (md ++ 'M' :: (sd ++ ['S']))) =
      numVal hd * 3600 + numVal md * 60 + numVal sd
    simp only [parsePTBody, hH, hM, hS]

/-- Witness: instantiates C8_parse_duration_spec's quantified clauses at
concrete inputs, discharging every hypothesis. -/
theorem C8_parse_duration_spec_witness :
    parse_duration "X1H" = 0 ∧ parse_duration ⟨['P', 'T', '7', 'H', '8', 'M', '9', 'S']⟩ = 25689 := by
  refine ⟨C8_parse_duration_spec.2.2.2.1 "X1H" ?_, ?_⟩
  · intro t ht
    simp [String.data] at ht
  · have := C8_parse_duration_spec.2.2.2.2 ['7'] ['8'] ['9'] (by decide) (by decide) (by decide)
      (by decide) (by decide) (by decide)
    simpa using this

/-- C1 (counterexample): regions shuffled to ["A", "B"]; every category of
region "A" raises a quota error (HTTP 403) and region "B" would succeed with
an admissible record.  The claim says the fetch abandons region "A"'s
remaining categories *but continues to region "B"*; the code instead `break`s
out of the region loop, so the returned list is empty and region "B"'s record
is absent. -/
theorem C1_quota_category_counterexample :
    fetch_batch ["A", "B"] singleCat envQuotaFirst 0 0 0 0 = [] ∧
    fetch_videos_by_date (envQuotaFirst "B") 0 (singleCat "B") = Except.ok [vSample] ∧
    passesThresholds 0 0 0 vSample = true ∧
    vSample ∉ fetch_batch ["A", "B"] singleCat envQuotaFirst 0 0 0 0 := by
  have h0 : fetch_batch ["A", "B"] singleCat envQuotaFirst 0 0 0 0 = [] := rfl
  refine ⟨h0, rfl, ?_, ?_⟩
  · simp [passesThresholds, requiredViews, pythonInt, vSample]
  · rw [h0]
    exact List.not_mem_nil vSample

/-- C1 (amended): a quota/rate-limit failure (HTTP 403 or 429) while
processing one category is re-raised, abandoning the remaining categories of
that region and the failing region's partial results, and the region loop
then stops entirely: no later region is fetched, while results of regions
processed before the failure are kept. -/
theorem C1_quota_category_amended :
    (∀ (envr : String → FetchOutcome) (d : Nat) (c : String) (cs : List String)
        (acc : List Video) (s : Nat),
        envr c = FetchOutcome.httpError s → isQuotaStatus s = true →
        fetchCategoriesLoop envr d (c :: cs) acc = Except.error s) ∧
    (∀ (f : String → Except Nat (List Video)) (r₁ r₂ : String) (rest : List String)
        (vs : List Video) (s : Nat),
        f r₁ = Except.ok vs → f r₂ = Except.error s → isQuotaStatus s = true →
        fetchRegionsLoop f (r₁ :: r₂ :: rest) [] = vs) := by
  constructor
  · intro envr d c cs acc s hc hs
    simp [fetchCategoriesLoop, hc, hs]
  · intro f r₁ r₂ rest vs s h1 h2 hs
    simp [fetchRegionsLoop, h1, h2, hs]

/-- Witness: applies C1_quota_category_amended at concrete inputs. -/
theorem C1_quota_category_witness :
    fetchCategoriesLoop (fun _ => FetchOutcome.httpError 403) 0 ["20", "24"] [vSample] =
      Except.error 403 ∧
    fetchRegionsLoop (fun r => if r = "A" then Except.ok [vSample] else Except.error 403)
      ["A", "B", "C"] [] = [vSample] :=
  ⟨C1_quota_category_amended.1 _ 0 "20" ["24"] [vSample] 403 rfl rfl,
   C1_quota_category_amended.2 _ "A" "B" ["C"] [vSample] 403 rfl rfl rfl⟩

/-- C2: a record whose identifier is not among the previously admitted ones
(the seen-set holds exactly the admitted identifiers) is admitted iff
`channel_subscribers ≥ min_subscribers` and
`views ≥ max(min_views, ⌊channel_subscribers * min_view_ratio⌋)`. -/
theorem C2_threshold_admission (p₁ p₂ : Nat) (ρ : ℚ) (l rest : List Video) (v : Video)
    (hunseen : v.video_id ∉ (fetchBatchFilter p₁ p₂ ρ l).map (fun w => w.video_id)) :
    v ∈ fetchBatchFilter p₁ p₂ ρ (l ++ v :: rest) ↔
      (p₁ ≤ v.channel_subscribers ∧
        max (p₂ : ℤ) ⌊(v.channel_subscribers : ℚ) * ρ⌋ ≤ (v.views : ℤ)) := by
  have hseen : v.video_id ∉ seenAfter p₁ p₂ ρ [] l := by
    rw [mem_seenAfter]
    simpa using hunseen
  constructor
  · intro hv
    rw [fetchBatchFilter, dedupFilterAux_append] at hv
    rcases List.mem_append.mp hv with h | h
    · exact absurd (List.mem_map_of_mem _ h) hunseen
    · have hp := mem_dedupFilterAux_passes p₁ p₂ ρ (v :: rest) _ v h
      rw [passesThresholds, Bool.and_eq_true, decide_eq_true_eq, decide_eq_true_eq] at hp
      exact ⟨hp.1, (requiredViews_le_iff p₂ v.channel_subscribers v.views ρ).mp hp.2⟩
  · rintro ⟨h1, h2⟩
    have hpass : passesThresholds p₁ p₂ ρ v = true := by
      rw [passesThresholds, Bool.and_eq_true, decide_eq_true_eq, decide_eq_true_eq]
      exact ⟨h1, (requiredViews_le_iff p₂ v.channel_subscribers v.views ρ).mpr h2⟩
    rw [fetchBatchFilter, dedupFilterAux_append]
    have hstep : dedupFilterAux p₁ p₂ ρ (seenAfter p₁ p₂ ρ [] l) (v :: rest) =
        v :: dedupFilterAux p₁ p₂ ρ (v.video_id :: seenAfter p₁ p₂ ρ [] l) rest := by
      simp [dedupFilterAux, hseen, hpass]
    rw [hstep]
    simp

/-- Witness: applies C2_threshold_admission with `l = []`,
`v = vC2` (2000 subscribers, 1000 views) at `min_subscribers = 1000`,
`min_views = 100`, `min_view_ratio = 0`. -/
theorem C2_threshold_admission_witness :
    vC2 ∈ fetchBatchFilter 1000 100 0 ([] ++ vC2 :: []) :=
  (C2_threshold_admission 1000 100 0 [] [] vC2 (by simp [fetchBatchFilter, dedupFilterAux])).mpr
    (by constructor
        · simp [vC2]
        · simp [vC2])

/-- C3: identifiers enter the seen-set only in the admission branch: a later
record whose identifier was already admitted is dropped (the output equals
the output without it), while a later record whose identifier was never
admitted is re-evaluated — dropped again when it fails the thresholds, and
admitted when it passes. -/
theorem C3_seen_only_on_admission (p₁ p₂ : Nat) (ρ : ℚ) (l rest : List Video) (w : Video) :
    (w.video_id ∈ (fetchBatchFilter p₁ p₂ ρ l).map (fun v => v.video_id) →
      fetchBatchFilter p₁ p₂ ρ (l ++ w :: rest) = fetchBatchFilter p₁ p₂ ρ (l ++ rest)) ∧
    (w.video_id ∉ (fetchBatchFilter p₁ p₂ ρ l).map (fun v => v.video_id) →
      passesThresholds p₁ p₂ ρ w = false →
      fetchBatchFilter p₁ p₂ ρ (l ++ w :: rest) = fetchBatchFilter p₁ p₂ ρ (l ++ rest)) ∧
    (w.video_id ∉ (fetchBatchFilter p₁ p₂ ρ l).map (fun v => v.video_id) →
      passesThresholds p₁ p₂ ρ w = true →
      w ∈ fetchBatchFilter p₁ p₂ ρ (l ++ w :: rest)) := by
  refine ⟨?_, ?_, ?_⟩
  · intro hmem
    have hseen : w.video_id ∈ seenAfter p₁ p₂ ρ [] l :=
      (mem_seenAfter p₁ p₂ ρ l [] w.video_id).mpr (Or.inr hmem)
    simp only [fetchBatchFilter]
    rw [dedupFilterAux_append, dedupFilterAux_append]
    congr 1
    simp [dedupFilterAux, hseen]
  · intro hmem hfail
    have hseen : w.video_id ∉ seenAfter p₁ p₂ ρ [] l := by
      rw [mem_seenAfter]
      simpa using hmem
    simp only [fetchBatchFilter]
    rw [dedupFilterAux_append, dedupFilterAux_append]
    congr 1
    simp [dedupFilterAux, hseen, hfail]
  · intro hmem hpass
    have hseen : w.video_id ∉ seenAfter p₁ p₂ ρ [] l := by
      rw [mem_seenAfter]
      simpa using hmem
    rw [fetchBatchFilter, dedupFilterAux_append]
    have hstep : dedupFilterAux p₁ p₂ ρ (seenAfter p₁ p₂ ρ [] l) (w :: rest) =
        w :: dedupFilterAux p₁ p₂ ρ (w.video_id :: seenAfter p₁ p₂ ρ [] l) rest := by
      simp [dedupFilterAux, hseen, hpass]
    rw [hstep]
    simp

/-- Witness: applies C3_seen_only_on_admission twice — a duplicate of the
admitted `vAdmitted` is dropped, and `vRetried`, a duplicate of the rejected
`vRejected`, is re-evaluated and admitted. -/
theorem C3_seen_only_on_admission_witness :
    fetchBatchFilter 0 0 0 ([vAdmitted] ++ vDupLater :: []) =
      fetchBatchFilter 0 0 0 ([vAdmitted] ++ []) ∧
    vRetried ∈ fetchBatchFilter 100 0 0 ([vRejected] ++ vRetried :: []) := by
  constructor
  · refine (C3_seen_only_on_admission 0 0 0 [vAdmitted] [] vDupLater).1 ?_
    simp [fetchBatchFilter, dedupFilterAux, passesThresholds, requiredViews, pythonInt,
      vAdmitted, vDupLater]
  · refine (C3_seen_only_on_admission 100 0 0 [vRejected] [] vRetried).2.2 ?_ ?_
    · simp [fetchBatchFilter, dedupFilterAux, passesThresholds, requiredViews, pythonInt,
        vRejected, vRetried]
    · simp [passesThresholds, requiredViews, pythonInt, vRetried]

/-- C4: the list `fetch_batch` returns has pairwise distinct identifiers and
is a sublist (preserves relative arrival order) of the concatenated raw
extraction results of the region loop. -/
theorem C4_nodup_and_order (regionOrder : List String) (catOrder : String → List String)
    (env : String → String → FetchOutcome) (d p₁ p₂ : Nat) (ρ : ℚ) :
    ((fetch_batch regionOrder catOrder env d p₁ p₂ ρ).map (fun v => v.video_id)).Nodup ∧
    List.Sublist (fetch_batch regionOrder catOrder env d p₁ p₂ ρ)
      (fetchRegionsLoop (fun r => fetch_videos_by_date (env r) d (catOrder r))
        regionOrder []) :=
  ⟨(dedupFilterAux_nodup p₁ p₂ ρ
      (fetchRegionsLoop (fun r => fetch_videos_by_date (env r) d (catOrder r)) regionOrder [])
      []).1,
   dedupFilterAux_sublist p₁ p₂ ρ
      (fetchRegionsLoop (fun r => fetch_videos_by_date (env r) d (catOrder r)) regionOrder [])
      []⟩

/-- C7: a quota failure at the top level on region 2 of 3 stops the fetch:
the raw records of region 1 are kept (the returned list is exactly the dedup
filter applied to them) and region 3 is never attempted — the conclusion is
independent of what the environment would answer for it. -/
theorem C7_top_level_quota (catOrder : String → List String)
    (env : String → String → FetchOutcome) (d p₁ p₂ : Nat) (ρ : ℚ)
    (r₁ r₂ r₃ : String) (vs : List Video) (s : Nat)
    (h₁ : fetch_videos_by_date (env r₁) d (catOrder r₁) = Except.ok vs)
    (h₂ : fetch_videos_by_date (env r₂) d (catOrder r₂) = Except.error s)
    (hs : isQuotaStatus s = true) :
    fetch_batch [r₁, r₂, r₃] catOrder env d p₁ p₂ ρ = fetchBatchFilter p₁ p₂ ρ vs := by
  simp [fetch_batch, fetchRegionsLoop, h₁, h₂, hs]

/-- Witness: applies C7_top_level_quota to the three-region scenario where
region "A" yields `vSample` and region "B" hits HTTP 403. -/
theorem C7_top_level_quota_witness :
    fetch_batch ["A", "B", "C"] singleCat envOkThenQuota 0 0 0 0 =
      fetchBatchFilter 0 0 0 [vSample] :=
  C7_top_level_quota singleCat envOkThenQuota 0 0 0 0 "A" "B" "C" [vSample] 403 rfl rfl rfl

theorem charListLe_refl (a : List Char) : charListLe a a = true := by
  induction a with
  | nil => rfl
  | cons c cs ih => simp [charListLe, ih]

theorem charListLe_total (a b : List Char) :
    charListLe a b = true ∨ charListLe b a = true := by
  induction a generalizing b with
  | nil => left; rfl
  | cons c cs ih =>
    cases b with
    | nil => right; rfl
    | cons d ds =>
      by_cases h : c = d
      · subst h
        rcases ih ds with h | h
        · left; simp [charListLe, h]
        · right; simp [charListLe, h]
      · rcases lt_or_gt_of_ne h with hlt | hlt
        · left; simp [charListLe, h, hlt]
        · right; simp [charListLe, Ne.symm h, hlt]

theorem charListLe_trans (a b c : List Char) (hab : charListLe a b = true)
    (hbc : charListLe b c = true) : charListLe a c = true := by
  induction a generalizing b c with
  | nil => rfl
  | cons x xs ih =>
    cases b with
    | nil => simp [charListLe] at hab
    | cons y ys =>
      cases c with
      | nil => simp [charListLe] at hbc
      | cons z zs =>
        by_cases hxy : x = y
        · subst hxy
          by_cases hyz : x = z
          · subst hyz
            simp only [charListLe, if_pos rfl] at hab hbc ⊢
            exact ih ys zs hab hbc
          · simp only [charListLe, if_pos rfl] at hab
            simp only [charListLe, if_neg hyz] at hbc ⊢
            exact hbc
        · by_cases hyz : y = z
          · subst hyz
            simp only [charListLe, if_neg hxy] at hab ⊢
            exact hab
          · simp only [charListLe, if_neg hxy, decide_eq_true_eq] at hab
            simp only [charListLe, if_neg hyz, decide_eq_true_eq] at hbc
            have hxz : x < z := lt_trans hab hbc
            simp [charListLe, ne_of_lt hxz, hxz]

theorem insertByName_perm (n : Nat) (l : List Nat) :
    List.Perm (insertByName n l) (n :: l) := by
  induction l with
  | nil => exact List.Perm.refl [n]
  | cons m ms ih =>
    by_cases h : nameLe n m = true
    · simp [insertByName, h]
    · simp only [insertByName, if_neg h]
      exact (List.Perm.cons m ih).trans (List.Perm.swap n m ms)

theorem sortByName_perm (nums : List Nat) : List.Perm (sortByName nums) nums := by
  induction nums with
  | nil => exact List.Perm.refl []
  | cons n ns ih =>
    have hred : sortByName (n :: ns) = insertByName n (sortByName ns) := rfl
    rw [hred]
    exact (insertByName_perm n (sortByName ns)).trans (List.Perm.cons n ih)

theorem pairwise_insertByName (n : Nat) (l : List Nat)
    (h : l.Pairwise (fun a b => nameLe a b = true)) :
    (insertByName n l).Pairwise (fun a b => nameLe a b = true) := by
  induction l with
  | nil => simp [insertByName]
  | cons m ms ih =>
    rcases List.pairwise_cons.mp h with ⟨hm, hms⟩
    by_cases hnm : nameLe n m = true
    · simp only [insertByName, if_pos hnm]
      refine List.pairwise_cons.mpr ⟨?_, h⟩
      intro x hx
      rcases List.mem_cons.mp hx with rfl | hx
      · exact hnm
      · exact charListLe_trans _ _ _ hnm (hm x hx)
    · simp only [insertByName, if_neg hnm]
      refine List.pairwise_cons.mpr ⟨?_, ih hms⟩
      intro x hx
      have hx2 := (insertByName_perm n ms).mem_iff.mp hx
      rcases List.mem_cons.mp hx2 with rfl | hx2
      · rcases charListLe_total (batchFileName m).data (batchFileName x).data with ht | ht
        · exact ht
        · exact absurd ht hnm
      · exact hm x hx2

theorem sortByName_pairwise (nums : List Nat) :
    (sortByName nums).Pairwise (fun a b => nameLe a b = true) := by
  induction nums with
  | nil => simp [sortByName]
  | cons n ns ih => exact pairwise_insertByName n (sortByName ns) ih

/-- C5 (counterexample): with sealed batches {999, 1000} and a maximum of 1,
the pruner evicts batch 1000 — not the numerically smallest batch 999 —
because `batch_1000.dvc` sorts lexicographically before `batch_999.dvc`. -/
theorem C5_prune_counterexample :
    (prune_old_batches 1 [999, 1000]).1 = some 1000 ∧
    (999 : Nat) < 1000 ∧ 999 ∈ [999, 1000] := by decide

set_option maxRecDepth 40000 in
/-- C5 (amended): when the sealed-batch count exceeds the maximum the pruner
evicts exactly one batch — the one whose `.dvc` file name is lexicographically
smallest (which is the numerically smallest whenever all padded names have
equal width, e.g. numbers ≤ 999) — and afterwards the ledger holds exactly
the remaining batches; when the count does not exceed the maximum nothing is
evicted.  The instance {1,…,151} with maximum 150 evicts batch 1 and keeps
{2,…,151}. -/
theorem C5_prune_amended :
    (∀ (maxB : Nat) (nums : List Nat), ¬ maxB < nums.length →
      prune_old_batches maxB nums = (none, nums)) ∧
    (∀ (maxB : Nat) (nums : List Nat), maxB < nums.length →
      ∃ oldest tail, sortByName nums = oldest :: tail ∧
        prune_old_batches maxB nums = (some oldest, nums.erase oldest) ∧
        oldest ∈ nums ∧ ∀ m ∈ nums, nameLe oldest m = true) ∧
    (prune_old_batches 150 (List.range' 1 151)).1 = some 1 ∧
    (prune_old_batches 150 (List.range' 1 151)).2 = List.range' 2 150 := by
  refine ⟨?_, ?_, by decide, by decide⟩
  · intro maxB nums h
    simp [prune_old_batches, h]
  · intro maxB nums h
    have hne : sortByName nums ≠ [] := by
      have hlen := (sortByName_perm nums).length_eq
      intro hnil
      rw [hnil] at hlen
      simp only [List.length_nil] at hlen
      omega
    obtain ⟨oldest, tail, heq⟩ := List.exists_cons_of_ne_nil hne
    refine ⟨oldest, tail, heq, ?_, ?_, ?_⟩
    · simp [prune_old_batches, h, heq]
    · have hmem : oldest ∈ sortByName nums := by rw [heq]; simp
      exact (sortByName_perm nums).mem_iff.mp hmem
    · intro m hm
      have hm2 : m ∈ sortByName nums := (sortByName_perm nums).mem_iff.mpr hm
      rw [heq] at hm2
      rcases List.mem_cons.mp hm2 with rfl | hm2
      · exact charListLe_refl _
      · have hp := sortByName_pairwise nums
        rw [heq] at hp
        exact (List.pairwise_cons.mp hp).1 m hm2

/-- Witness: applies C5_prune_amended at concrete ledgers on both sides of
the limit. -/
theorem C5_prune_witness :
    prune_old_batches 2 [5, 6] = (none, [5, 6]) ∧
    prune_old_batches 1 [5, 6] = (some 5, [6]) := by
  constructor
  · exact C5_prune_amended.1 2 [5, 6] (by decide)
  · obtain ⟨o, t, h1, h2, _, _⟩ := C5_prune_amended.2.1 1 [5, 6] (by decide)
    have hs : sortByName [5, 6] = [5, 6] := by decide
    rw [hs] at h1
    injection h1 with ho ht
    subst ho
    rw [h2]
    decide

theorem le_foldl_max (l : List Nat) : ∀ a, a ≤ l.foldl Nat.max a := by
  induction l with
  | nil => intro a; simp
  | cons b bs ih => intro a; exact le_trans (Nat.le_max_left a b) (ih (Nat.max a b))

theorem mem_le_foldl_max (l : List Nat) : ∀ a x, x ∈ l → x ≤ l.foldl Nat.max a := by
  induction l with
  | nil => intro a x hx; simp at hx
  | cons b bs ih =>
    intro a x hx
    rcases List.mem_cons.mp hx with rfl | hx
    · exact le_trans (Nat.le_max_right a x) (le_foldl_max bs (Nat.max a x))
    · exact ih (Nat.max a b) x hx

theorem foldl_max_mem (l : List Nat) : ∀ a, l.foldl Nat.max a = a ∨ l.foldl Nat.max a ∈ l := by
  induction l with
  | nil => intro a; left; rfl
  | cons b bs ih =>
    intro a
    have hred : (b :: bs).foldl Nat.max a = bs.foldl Nat.max (Nat.max a b) := rfl
    rw [hred]
    rcases ih (Nat.max a b) with h | h
    · by_cases hab : a ≤ b
      · have hm : Nat.max a b = b := Nat.max_eq_right hab
        right; rw [h, hm]; simp
      · have hm : Nat.max a b = a := Nat.max_eq_left (Nat.le_of_not_le hab)
        left; rw [h, hm]
    · right; exact List.mem_cons_of_mem b h

/-- C6: on a successful collection run (`videos` nonempty, so the script does
not exit early), the durable `.rotate` marker is written iff the working-set
count reaches `BATCH_LIMIT`, and it carries the batch name numbered one above
every already-sealed batch number — exactly one above an existing one when any
exist, and 1 when none exist. -/
theorem C6_rotation_marker (metadata_file : Option (List String)) (versions : List Nat) :
    (BATCH_LIMIT ≤ count_samples metadata_file →
      rotationMarker true metadata_file versions =
        some (batchName (get_next_batch_number versions))) ∧
    (count_samples metadata_file < BATCH_LIMIT →
      rotationMarker true metadata_file versions = none) ∧
    get_next_batch_number [] = 1 ∧
    (∀ n, n ∈ versions → n < get_next_batch_number versions) ∧
    (versions ≠ [] → get_next_batch_number versions - 1 ∈ versions) := by
  refine ⟨?_, ?_, rfl, ?_, ?_⟩
  · intro h
    simp [rotationMarker, h]
  · intro h
    simp [rotationMarker, not_le.mpr h]
  · intro n hn
    cases versions with
    | nil => simp at hn
    | cons v vs =>
      show n < vs.foldl Nat.max v + 1
      have hle : n ≤ vs.foldl Nat.max v := by
        rcases List.mem_cons.mp hn with rfl | hn
        · exact le_foldl_max vs n
        · exact mem_le_foldl_max vs v n hn
      omega
  · intro hne
    cases versions with
    | nil => exact absurd rfl hne
    | cons v vs =>
      show vs.foldl Nat.max v + 1 - 1 ∈ v :: vs
      simp only [Nat.add_sub_cancel]
      rcases foldl_max_mem vs v with h | h
      · rw [h]; simp
      · exact List.mem_cons_of_mem v h

set_option maxRecDepth 100000 in
/-- Witness: applies C6_rotation_marker on a 501-line metadata file (500
records ≥ limit, sealed batches {3, 7} so the marker is `batch_008`) and on a
header-only file (0 records, no marker). -/
theorem C6_rotation_marker_witness :
    rotationMarker true (some (List.replicate 501 "row")) [3, 7] = some "batch_008" ∧
    rotationMarker true (some ["header"]) [3, 7] = none := by
  constructor
  · have hc : BATCH_LIMIT ≤ count_samples (some (List.replicate 501 "row")) := by
      simp [count_samples, BATCH_LIMIT]
    have h := (C6_rotation_marker (some (List.replicate 501 "row")) [3, 7]).1 hc
    rw [h]
    rfl
  · exact (C6_rotation_marker (some ["header"]) [3, 7]).2.1
      (by simp [count_samples, BATCH_LIMIT])

theorem lookupPreset_updatePreset (presets : List (String × List String)) (region : String)
    (codes new : List String) (h : lookupPreset presets region = some codes) :
    lookupPreset (updatePreset presets region new) region = some new := by
  induction presets with
  | nil => simp [lookupPreset] at h
  | cons p ps ih =>
    by_cases hp : p.1 = region
    · simp [lookupPreset, updatePreset, hp]
    · simp only [lookupPreset, if_neg hp] at h
      simp only [updatePreset, List.map_cons, if_neg hp]
      simp only [lookupPreset, if_neg hp]
      exact ih h

/-- C9: resolving a preset region aliases the class-level `REGION_PRESETS`
entry and shuffles it in place: after the call the table stores the shuffled
list (a permutation of the previous preset), a subsequent call resolving the
same preset starts from the reordered list, and an explicitly passed category
list is likewise replaced by its shuffle for the caller. -/
theorem C9_preset_shuffle (presets : List (String × List String)) (region : String)
    (codes : List String) (shuffle : List String → List String)
    (hperm : ∀ l : List String, List.Perm (shuffle l) l)
    (hlook : lookupPreset presets region = some codes) :
    lookupPreset (resolveRegions presets region shuffle).2 region = some (shuffle codes) ∧
    List.Perm (shuffle codes) codes ∧
    (resolveRegions (resolveRegions presets region shuffle).2 region shuffle).1 =
      shuffle (shuffle codes) ∧
    (∀ l, (shuffleCategoriesArg (some l) shuffle).2 = some (shuffle l)) := by
  have h2 : (resolveRegions presets region shuffle).2 =
      updatePreset presets region (shuffle codes) := by
    simp [resolveRegions, hlook]
  have hl2 : lookupPreset (resolveRegions presets region shuffle).2 region =
      some (shuffle codes) := by
    rw [h2]
    exact lookupPreset_updatePreset presets region codes (shuffle codes) hlook
  refine ⟨hl2, hperm codes, ?_, fun l => rfl⟩
  generalize hst : (resolveRegions presets region shuffle).2 = st1 at hl2 ⊢
  simp [resolveRegions, hl2]

/-- Witness: applies C9_preset_shuffle to `REGION_PRESETS` itself with the
"US_EU" preset and reversal as the shuffle permutation. -/
theorem C9_preset_shuffle_witness :
    lookupPreset (resolveRegions REGION_PRESETS "US_EU" List.reverse).2 "US_EU" =
      some ["NO", "FI", "DK", "SE", "NL", "FR", "DE", "IE", "GB", "US"] := by
  have h := (C9_preset_shuffle REGION_PRESETS "US_EU"
      ["US", "GB", "IE", "DE", "FR", "NL", "SE", "DK", "FI", "NO"] List.reverse
      (fun l => List.reverse_perm l) rfl).1
  rw [h]
  rfl

/-- C10: `count_samples` is the line count minus one — 0 for a missing file
but −1 for an existing empty file — and this signed value is what the
rotation check compares against `BATCH_LIMIT` (so an empty file never
triggers rotation). -/
theorem C10_count_samples :
    count_samples none = 0 ∧
    count_samples (some []) = -1 ∧
    (∀ lines, count_samples (some lines) = (lines.length : ℤ) - 1) ∧
    (∀ versions, rotationMarker true (some []) versions = none) := by
  refine ⟨rfl, rfl, fun lines => rfl, fun versions => rfl⟩

end YTCollector
